import Mathlib

/-!
# Verification of the Minesweeper AI knowledge-base inference engine

Shallow embedding of `src/minesweeper/minesweeper.py` (classes `Sentence`
and `MinesweeperAI`).  Python sets of cells are represented as canonically
sorted, duplicate-free lists (`CSet`), so that structural set equality
coincides with list equality.  Python's in-place mutation of `Sentence`
objects is modelled by explicit state passing; a raised `ValueError` is
modelled by a `Bool` error flag carried next to the (already mutated)
state, matching the fact that Python mutations performed before a raise
are not rolled back.  The unbounded double loop implementing the subset
inference rule is modelled with explicit fuel (`Option` result; `none`
means fuel ran out, which never happens for the concrete runs below).
-/

/-- A board cell, Python's `(i, j)` tuple of ints. -/
abbrev Cell : Type := Int × Int

/-- Canonical representation of a Python `set` of cells: a lexicographically
sorted list without duplicates (all operations below preserve this). -/
abbrev CSet : Type := List Cell

/-- Lexicographic order on cells used to keep `CSet`s canonical. -/
def cellLe (a b : Cell) : Bool :=
  decide (a.1 < b.1 ∨ (a.1 = b.1 ∧ a.2 ≤ b.2))

/-- Insert a cell into a canonical `CSet` (no-op if already present). -/
def insertCell (c : Cell) : CSet → CSet
  | [] => [c]
  | x :: xs =>
    if c = x then x :: xs
    else if cellLe c x then c :: x :: xs
    else x :: insertCell c xs

/-- Remove a cell from a `CSet` (`set.remove`; callers guard membership). -/
def eraseCell (c : Cell) (s : CSet) : CSet :=
  s.filter (fun x => decide (x ≠ c))

/-- Python `set(iterable)`: fold the elements into a canonical `CSet`. -/
def setFrom (l : List Cell) : CSet :=
  l.foldl (fun s c => insertCell c s) []

/-- `Sentence(cells, count)`: a set of board cells and a count of how many
of them are mines (`minesweeper.py` lines 87–141).  Equality is structural
(`__eq__` compares the cell set and the count). -/
structure Sentence where
  cells : CSet
  count : Int
deriving DecidableEq

/-- `Sentence.__init__`: stores `set(cells)` and `count`, no validation. -/
def mkSentence (cells : List Cell) (count : Int) : Sentence :=
  ⟨setFrom cells, count⟩

/-- `Sentence.known_mines`: all cells if `len(cells) == count`, else `∅`. -/
def knownMines (s : Sentence) : CSet :=
  if (s.cells.length : Int) = s.count then s.cells else []

/-- `Sentence.known_safes`: all cells if `count == 0`, else `∅`. -/
def knownSafes (s : Sentence) : CSet :=
  if s.count = 0 then s.cells else []

/-- `Sentence.mark_mine(cell)`: if present, remove the cell and decrement
`count`; afterwards raise `ValueError` when `count < 0`.  The returned
sentence is the mutated one even when the error flag is set (the Python
mutation happens before the raise and is not rolled back). -/
def sMarkMine (s : Sentence) (c : Cell) : Sentence × Bool :=
  let s' := if c ∈ s.cells then Sentence.mk (eraseCell c s.cells) (s.count - 1) else s
  (s', decide (s'.count < 0))

/-- `Sentence.mark_safe(cell)`: remove the cell if present, count unchanged. -/
def sMarkSafe (s : Sentence) (c : Cell) : Sentence :=
  if c ∈ s.cells then Sentence.mk (eraseCell c s.cells) s.count else s

/-- The part of the `MinesweeperAI` state touched by knowledge propagation:
the `mines` and `safes` sets and the `knowledge` list of sentences. -/
structure KB where
  mines : CSet
  safes : CSet
  knowledge : List Sentence
deriving DecidableEq

/-- The sentence-updating loop of `MinesweeperAI.mark_mine`: apply
`Sentence.mark_mine` to each sentence in order; a raise aborts the loop,
leaving earlier sentences updated and later ones untouched. -/
def markMineGo : List Sentence → Cell → List Sentence × Bool
  | [], _ => ([], false)
  | s :: rest, c =>
    let p := sMarkMine s c
    if p.2 then (p.1 :: rest, true)
    else
      let q := markMineGo rest c
      (p.1 :: q.1, q.2)

/-- `MinesweeperAI.mark_mine(cell)`: add the cell to `mines`, then update
every sentence (the set insertion happens before the loop, so it persists
even when a sentence raises). -/
def kbMarkMine (k : KB) (c : Cell) : KB × Bool :=
  let q := markMineGo k.knowledge c
  (⟨insertCell c k.mines, k.safes, q.1⟩, q.2)

/-- `MinesweeperAI.mark_safe(cell)`: add the cell to `safes`, then update
every sentence (never raises). -/
def kbMarkSafe (k : KB) (c : Cell) : KB :=
  ⟨k.mines, insertCell c k.safes, k.knowledge.map (fun s => sMarkSafe s c)⟩

/-- Mark each cell of a list as a mine (`for mine in ...: self.mark_mine`);
a raise aborts the remaining iterations. -/
def markMinesList : KB → List Cell → KB × Bool
  | k, [] => (k, false)
  | k, c :: cs =>
    let p := kbMarkMine k c
    if p.2 then (p.1, true) else markMinesList p.1 cs

/-- Mark each cell of a list as safe (`for safe in ...: self.mark_safe`). -/
def markSafesList (k : KB) (cs : List Cell) : KB :=
  cs.foldl kbMarkSafe k

/-- Step 4 of `add_knowledge`: iterate over a snapshot of the knowledge
list (the list's length is invariant here, so index `i` addresses the same
sentence object as the snapshot); mark its `known_mines`, then re-read the
(possibly mutated) sentence and mark its `known_safes`. -/
def step4Go : Nat → Nat → KB → KB × Bool
  | _, 0, k => (k, false)
  | i, n + 1, k =>
    match k.knowledge.get? i with
    | none => (k, false)
    | some sen =>
      let p := markMinesList k (knownMines sen)
      if p.2 then (p.1, true)
      else
        match p.1.knowledge.get? i with
        | none => (p.1, false)
        | some sen1 => step4Go (i + 1) n (markSafesList p.1 (knownSafes sen1))

/-- Step 4 of `add_knowledge` (lines 216–223). -/
def step4 (k : KB) : KB × Bool :=
  step4Go 0 k.knowledge.length k

/-- First-occurrence deduplication of the knowledge list (lines 245–249). -/
def dedupGo (acc : List Sentence) : List Sentence → List Sentence
  | [] => acc
  | s :: rest => if s ∈ acc then dedupGo acc rest else dedupGo (acc ++ [s]) rest

/-- `sentence1.cells.issubset(sentence2.cells)`. -/
def subsetOf (a b : CSet) : Bool :=
  a.all (fun c => decide (c ∈ b))

/-- The candidate sentence of the subset rule (lines 256–259):
`Sentence(sentence2.cells - sentence1.cells, sentence2.count - sentence1.count)`. -/
def inferredSentence (s1 s2 : Sentence) : Sentence :=
  Sentence.mk (s2.cells.filter (fun c => decide (c ∉ s1.cells))) (s2.count - s1.count)

/-- One iteration of the subset-rule double loop (lines 253–261): if
`s1 ≠ s2` and `s1.cells ⊆ s2.cells`, the candidate is appended when its
cells are non-empty, its count is non-negative, and it is not already in
the knowledge list. -/
def subsetStep (kb : List Sentence) (s1 s2 : Sentence) : List Sentence :=
  if s1 ≠ s2 then
    if subsetOf s1.cells s2.cells then
      if (inferredSentence s1 s2).cells ≠ [] ∧ 0 ≤ (inferredSentence s1 s2).count then
        if inferredSentence s1 s2 ∈ kb then kb else kb ++ [inferredSentence s1 s2]
      else kb
    else kb
  else kb

/-- The subset-rule double loop (lines 251–261), modelling Python's
index-based list iteration: appends made during iteration are visited
(both loops re-check the current list length).  `fuel` bounds the number
of loop steps; `none` means it was exhausted. -/
def subsetLoop : Nat → Nat → Nat → List Sentence → Option (List Sentence)
  | 0, _, _, _ => none
  | fuel + 1, i, j, kb =>
    match kb.get? i with
    | none => some kb
    | some s1 =>
      match kb.get? j with
      | none => subsetLoop fuel (i + 1) 0 kb
      | some s2 => subsetLoop fuel i (j + 1) (subsetStep kb s1 s2)

/-- Cleanup and deduplication between steps 4 and 5 of `add_knowledge`
(lines 236–249): drop sentences with empty cells, drop sentences with
`count < 0` (the second comprehension keeps a sentence iff `count > 0` or
`count == 0` with nonempty cells), then deduplicate keeping first
occurrences. -/
def cleanupDedup (l : List Sentence) : List Sentence :=
  dedupGo []
    ((l.filter (fun s => !s.cells.isEmpty)).filter
      (fun s => decide (0 < s.count) || (decide (s.count = 0) && !s.cells.isEmpty)))

/-- Steps 4–5 of `add_knowledge` (lines 214–261): trivial deductions,
cleanup and deduplication, then the subset rule.  The `Bool` is the
raised-`ValueError` flag; `none` means the subset loop's fuel ran out. -/
def inferencePass (fuel : Nat) (k : KB) : Option (KB × Bool) :=
  if (step4 k).2 then some ((step4 k).1, true)
  else
    match subsetLoop fuel 0 0 (cleanupDedup (step4 k).1.knowledge) with
    | none => none
    | some kb4 => some (⟨(step4 k).1.mines, (step4 k).1.safes, kb4⟩, false)

/-- Full `MinesweeperAI` state: board bounds, `moves_made`, and the
knowledge part. -/
structure AIState where
  height : Nat
  width : Nat
  movesMade : CSet
  kb : KB
deriving DecidableEq

/-- `MinesweeperAI.__init__`. -/
def initialAI (h w : Nat) : AIState :=
  ⟨h, w, [], ⟨[], [], []⟩⟩

/-- Agent-level `mark_mine` (updates the knowledge part of the state). -/
def aiMarkMine (st : AIState) (c : Cell) : AIState × Bool :=
  let p := kbMarkMine st.kb c
  ({ st with kb := p.1 }, p.2)

/-- Agent-level `mark_safe`. -/
def aiMarkSafe (st : AIState) (c : Cell) : AIState :=
  { st with kb := kbMarkSafe st.kb c }

/-- The neighbour computation of `add_knowledge` step 3 (lines 206–210):
all in-bounds cells with row and column offsets in `{-1, 0, 1}`, the cell
itself excluded, collected into a set. -/
def neighborsOf (h w : Nat) (cell : Cell) : CSet :=
  setFrom
    (((List.range 3).flatMap (fun di =>
        (List.range 3).map (fun dj =>
          ((cell.1 - 1 + (di : Int), cell.2 - 1 + (dj : Int)) : Cell)))).filter
      (fun c => decide (c ≠ cell) && decide (0 ≤ c.1) && decide (c.1 < (h : Int))
        && decide (0 ≤ c.2) && decide (c.2 < (w : Int))))

/-- Steps 1–3 of `add_knowledge`: record the move, mark the revealed cell
safe, and unconditionally append `Sentence(neighbors, count)` built from
the raw in-bounds neighbourhood and the supplied count. -/
def preInferState (st : AIState) (cell : Cell) (count : Int) : AIState :=
  let st1 := { st with movesMade := insertCell cell st.movesMade }
  let st2 := aiMarkSafe st1 cell
  { st2 with
    kb := ⟨st2.kb.mines, st2.kb.safes,
           st2.kb.knowledge ++ [Sentence.mk (neighborsOf st.height st.width cell) count]⟩ }

/-- `MinesweeperAI.add_knowledge(cell, count)` (lines 182–261). -/
def addKnowledge (fuel : Nat) (st : AIState) (cell : Cell) (count : Int) :
    Option (AIState × Bool) :=
  match inferencePass fuel (preInferState st cell count).kb with
  | none => none
  | some p => some ({ preInferState st cell count with kb := p.1 }, p.2)

/-- `MinesweeperAI.make_safe_move` (lines 264–277): first cell of `safes`
not in `moves_made`, else `None`; reads but never writes the state. -/
def makeSafeMove (st : AIState) : Option Cell :=
  st.kb.safes.find? (fun c => !(decide (c ∈ st.movesMade)))

/-- The `choices` list of `make_random_move` (lines 287–292). -/
def choicesOf (st : AIState) : List Cell :=
  (List.range st.height).flatMap (fun i =>
    (List.range st.width).filterMap (fun j =>
      let c : Cell := ((i : Int), (j : Int))
      if c ∉ st.movesMade ∧ c ∉ st.kb.mines then some c else none))

/-- `MinesweeperAI.make_random_move`: `random.choice(choices)` when the
list is non-empty (the draw is modelled by the index `k`, reduced modulo
the list length), `None` otherwise. -/
def makeRandomMove (st : AIState) (k : Nat) : Option Cell :=
  if (choicesOf st).isEmpty then none
  else (choicesOf st).get? (k % (choicesOf st).length)

/-! ## Membership lemmas for the canonical set representation -/

theorem mem_insertCell {a c : Cell} {s : CSet} :
    a ∈ insertCell c s ↔ a = c ∨ a ∈ s := by
  induction s with
  | nil => simp [insertCell]
  | cons x xs ih =>
    simp only [insertCell]
    split
    · next h => subst h; simp [List.mem_cons]
    · split
      · simp [List.mem_cons]
      · simp only [List.mem_cons, ih]; tauto

theorem self_mem_insertCell {c : Cell} {s : CSet} : c ∈ insertCell c s :=
  mem_insertCell.mpr (Or.inl rfl)

theorem mem_setFrom_aux {a : Cell} :
    ∀ (l : List Cell) (acc : CSet),
      a ∈ l.foldl (fun s c => insertCell c s) acc ↔ a ∈ acc ∨ a ∈ l := by
  intro l
  induction l with
  | nil => simp
  | cons x xs ih =>
    intro acc
    simp only [List.foldl_cons, ih, mem_insertCell, List.mem_cons]
    tauto

theorem mem_setFrom {a : Cell} {l : List Cell} : a ∈ setFrom l ↔ a ∈ l := by
  simp [setFrom, mem_setFrom_aux]

/-! ## Concrete states used by the example-based claims -/

/-- Knowledge part holding exactly the two retained sentences of the
subset-rule example: `A = {(1,1),(1,2)}, count 1` and
`B = {(1,1),(1,2),(1,3)}, count 2`. -/
def subsetExampleKB : KB :=
  ⟨[], [],
   [⟨[((1:Int),(1:Int)), ((1:Int),(2:Int))], 1⟩,
    ⟨[((1:Int),(1:Int)), ((1:Int),(2:Int)), ((1:Int),(3:Int))], 2⟩]⟩

/-- Result of one inference pass on `subsetExampleKB`: the derived
sentence `{(1,3)}, count 1` is appended, but nothing is marked. -/
def subsetExamplePost : KB :=
  ⟨[], [],
   [⟨[((1:Int),(1:Int)), ((1:Int),(2:Int))], 1⟩,
    ⟨[((1:Int),(1:Int)), ((1:Int),(2:Int)), ((1:Int),(3:Int))], 2⟩,
    ⟨[((1:Int),(3:Int))], 1⟩]⟩

/-- State of a fresh 2×3 agent after the honest observation
`add_knowledge((0,0), 1)` (ground truth: a single mine at `(1,1)`). -/
def oneObsState : AIState :=
  ⟨2, 3, [((0:Int),(0:Int))],
   ⟨[], [((0:Int),(0:Int))],
    [⟨[((0:Int),(1:Int)), ((1:Int),(0:Int)), ((1:Int),(1:Int))], 1⟩]⟩⟩

/-- State of the same agent after the further honest observation
`add_knowledge((1,0), 1)`.  Its knowledge base retains the subset-derived
sentence `{(0,0)}, count 0` on which no trivial deduction has acted. -/
def twoObsState : AIState :=
  ⟨2, 3, [((0:Int),(0:Int)), ((1:Int),(0:Int))],
   ⟨[], [((0:Int),(0:Int)), ((1:Int),(0:Int))],
    [⟨[((0:Int),(1:Int)), ((1:Int),(1:Int))], 1⟩,
     ⟨[((0:Int),(0:Int)), ((0:Int),(1:Int)), ((1:Int),(1:Int))], 1⟩,
     ⟨[((0:Int),(0:Int))], 0⟩]⟩⟩

/-! ## C1: the step-3 sentence -/

/-- C1, counterexample: on a 2×2 agent that already knows `(0,1)` is a
mine, `add_knowledge((1,1), 1)` builds and retains the sentence
`{(0,0),(0,1),(1,0)} = 1`: the known mine `(0,1)` is not excluded from
its cells and the count is not adjusted downward to 0, contradicting the
claimed exclusion and adjustment. -/
theorem c1_counterexample :
    addKnowledge 100 (aiMarkMine (initialAI 2 2) ((0:Int),(1:Int))).1 ((1:Int),(1:Int)) 1
      = some (⟨2, 2, [((1:Int),(1:Int))],
              ⟨[((0:Int),(1:Int))], [((1:Int),(1:Int))],
               [⟨[((0:Int),(0:Int)), ((0:Int),(1:Int)), ((1:Int),(0:Int))], 1⟩]⟩⟩, false)
  ∧ ((0:Int),(1:Int)) ∈ (aiMarkMine (initialAI 2 2) ((0:Int),(1:Int))).1.kb.mines
  ∧ ((0:Int),(1:Int)) ∈ ([((0:Int),(0:Int)), ((0:Int),(1:Int)), ((1:Int),(0:Int))] : CSet) := by
  decide

/-! ## C2: the subset-rule example -/

/-- C2 (amended): on the knowledge base holding exactly `A` and `B`, one
inference pass derives `C = {(1,3)} = 1` into the knowledge base, but does
not mark `(1,3)` as a mine (marking precedes the subset rule in the pass);
only the next pass marks it. -/
theorem subset_example_derived_not_marked :
    inferencePass 100 subsetExampleKB = some (subsetExamplePost, false)
  ∧ Sentence.mk [((1:Int),(3:Int))] 1 ∈ subsetExamplePost.knowledge
  ∧ ((1:Int),(3:Int)) ∉ subsetExamplePost.mines
  ∧ inferencePass 100 subsetExamplePost
      = some (⟨[((1:Int),(3:Int))], [],
               [⟨[((1:Int),(1:Int)), ((1:Int),(2:Int))], 1⟩]⟩, false)
  ∧ ((1:Int),(3:Int)) ∈ ([((1:Int),(3:Int))] : CSet) := by
  decide

/-- C2, counterexample: when the pass on `A, B` completes, `(1,3)` is not
in the `mines` set, contradicting the claim that it has been marked. -/
theorem c2_counterexample :
    inferencePass 100 subsetExampleKB = some (subsetExamplePost, false)
  ∧ ((1:Int),(3:Int)) ∉ subsetExamplePost.mines := by
  decide

/-! ## C3: missing fixpoint -/

/-- C3, counterexample: `twoObsState` is reached from a fresh 2×3 agent by
the two honest observations `add_knowledge((0,0),1)` and
`add_knowledge((1,0),1)`, yet re-running the inference pass on it shrinks
the knowledge base from three sentences to one, so `add_knowledge` does
not leave the state at a fixpoint. -/
theorem c3_counterexample :
    addKnowledge 100 (initialAI 2 3) ((0:Int),(0:Int)) 1 = some (oneObsState, false)
  ∧ addKnowledge 100 oneObsState ((1:Int),(0:Int)) 1 = some (twoObsState, false)
  ∧ inferencePass 100 twoObsState.kb
      = some (⟨[], [((0:Int),(0:Int)), ((1:Int),(0:Int))],
               [⟨[((0:Int),(1:Int)), ((1:Int),(1:Int))], 1⟩]⟩, false)
  ∧ (⟨[], [((0:Int),(0:Int)), ((1:Int),(0:Int))],
      [⟨[((0:Int),(1:Int)), ((1:Int),(1:Int))], 1⟩]⟩ : KB).knowledge
      ≠ twoObsState.kb.knowledge := by
  decide

/-! ## C4: the count bounds invariant -/

/-- C4, counterexample: the public call `add_knowledge((0,0), 5)` on a
fresh 2×2 agent retains the sentence `{(0,1),(1,0),(1,1)} = 5` in the
knowledge base, whose count 5 exceeds its 3 cells, contradicting the
claimed invariant `count ≤ |cells|`. -/
theorem c4_counterexample :
    addKnowledge 100 (initialAI 2 2) ((0:Int),(0:Int)) 5
      = some (⟨2, 2, [((0:Int),(0:Int))],
              ⟨[], [((0:Int),(0:Int))],
               [⟨[((0:Int),(1:Int)), ((1:Int),(0:Int)), ((1:Int),(1:Int))], 5⟩]⟩⟩, false)
  ∧ ¬ ((5:Int) ≤ ([((0:Int),(1:Int)), ((1:Int),(0:Int)), ((1:Int),(1:Int))] : CSet).length) := by
  decide

/-! ## C5: contradictory marking -/

/-- C5 (amended): neither `mark_mine` nor `mark_safe` checks the opposite
set, so marking a cell as a mine and then as safe (or vice versa) leaves
it in both `mines` and `safes`; `mines ∩ safes = ∅` is not enforced. -/
theorem mark_roundtrip_leaves_overlap (st : AIState) (c : Cell) :
    (c ∈ (aiMarkSafe (aiMarkMine st c).1 c).kb.mines
      ∧ c ∈ (aiMarkSafe (aiMarkMine st c).1 c).kb.safes)
  ∧ (c ∈ (aiMarkMine (aiMarkSafe st c) c).1.kb.mines
      ∧ c ∈ (aiMarkMine (aiMarkSafe st c) c).1.kb.safes) := by
  refine ⟨⟨?_, ?_⟩, ⟨?_, ?_⟩⟩ <;>
    simp [aiMarkMine, aiMarkSafe, kbMarkMine, kbMarkSafe, self_mem_insertCell,
      mem_insertCell]

/-- C5, counterexample: on a fresh 2×2 agent, `mark_mine((0,0))` followed
by `mark_safe((0,0))` completes without any error and leaves `(0,0)` in
both `mines` and `safes`. -/
theorem c5_counterexample :
    (aiMarkMine (initialAI 2 2) ((0:Int),(0:Int))).2 = false
  ∧ ((0:Int),(0:Int))
      ∈ (aiMarkSafe (aiMarkMine (initialAI 2 2) ((0:Int),(0:Int))).1 ((0:Int),(0:Int))).kb.mines
  ∧ ((0:Int),(0:Int))
      ∈ (aiMarkSafe (aiMarkMine (initialAI 2 2) ((0:Int),(0:Int))).1 ((0:Int),(0:Int))).kb.safes := by
  decide

/-! ## C6: sentence construction -/

/-- C6 (amended): `Sentence.__init__` performs no validation: for any cell
list and any count whatsoever (including counts below 0 or above the
number of cells) it constructs a sentence carrying exactly the given cell
set and count, and such sentences can even be retained in the knowledge
base by a public call. -/
theorem sentence_init_no_validation (l : List Cell) (n : Int) :
    (mkSentence l n).count = n ∧ ∀ c : Cell, c ∈ (mkSentence l n).cells ↔ c ∈ l :=
  ⟨rfl, fun _ => mem_setFrom⟩

/-- C6, counterexample: `Sentence({(0,0)}, 5)` is constructed successfully
(count 5 with a single cell, violating `count ≤ |cells|`), and
`add_knowledge((0,0), 4)` on a fresh 2×2 agent retains a sentence whose
count 4 exceeds its 3 cells — no `ValidationError` exists in the code. -/
theorem c6_counterexample :
    (mkSentence [((0:Int),(0:Int))] 5).count = 5
  ∧ (mkSentence [((0:Int),(0:Int))] 5).cells.length = 1
  ∧ ¬ ((5:Int) ≤ 1)
  ∧ addKnowledge 100 (initialAI 2 2) ((0:Int),(0:Int)) 4
      = some (⟨2, 2, [((0:Int),(0:Int))],
              ⟨[], [((0:Int),(0:Int))],
               [⟨[((0:Int),(1:Int)), ((1:Int),(0:Int)), ((1:Int),(1:Int))], 4⟩]⟩⟩, false) := by
  decide

/-! ## C1 (amended): characterization of the step-3 sentence -/

theorem mem_neighborsOf {h w : Nat} {cell c : Cell} :
    c ∈ neighborsOf h w cell ↔
      c ≠ cell ∧ (c.1 - cell.1).natAbs ≤ 1 ∧ (c.2 - cell.2).natAbs ≤ 1
        ∧ 0 ≤ c.1 ∧ c.1 < (h : Int) ∧ 0 ≤ c.2 ∧ c.2 < (w : Int) := by
  obtain ⟨x, y⟩ := c
  obtain ⟨a, b⟩ := cell
  unfold neighborsOf
  rw [mem_setFrom]
  simp only [List.mem_filter, List.mem_flatMap, List.mem_map, List.mem_range,
    Bool.and_eq_true, decide_eq_true_eq, Prod.mk.injEq]
  constructor
  · rintro ⟨⟨di, hdi, dj, hdj, hx, hy⟩, ⟨⟨⟨hne, h1⟩, h2⟩, h3⟩, h4⟩
    simp only [List.pure_def, List.bind_eq_flatMap, List.mem_flatMap, List.mem_range,
      List.mem_cons, List.not_mem_nil, or_false] at hdj
    obtain ⟨n, hn, rfl⟩ := hdj
    exact ⟨hne, by omega, by omega, h1, h2, h3, h4⟩
  · rintro ⟨hne, h1, h2, h3, h4, h5, h6⟩
    refine ⟨⟨(x - a + 1).toNat, by omega, ((y - b + 1 : Int)), ?_, by omega, by omega⟩,
      ⟨⟨⟨hne, h3⟩, h4⟩, h5⟩, h6⟩
    simp only [List.pure_def, List.bind_eq_flatMap, List.mem_flatMap, List.mem_range,
      List.mem_cons, List.not_mem_nil, or_false]
    exact ⟨(y - b + 1).toNat, by omega, by omega⟩

/-- C1 (amended): for every call `add_knowledge(cell, count)`, the
sentence built in step 3 is appended unconditionally to the knowledge
base, its count is exactly the supplied count (no adjustment for known
mines), and its cells are exactly the in-bounds Chebyshev neighbours of
`cell` other than `cell` itself — cells in `mines` or `safes` are not
excluded. -/
theorem add_knowledge_step3_no_exclusion (st : AIState) (cell : Cell) (count : Int) :
    ∃ s : Sentence,
      (preInferState st cell count).kb.knowledge
        = (kbMarkSafe st.kb cell).knowledge ++ [s]
      ∧ s.count = count
      ∧ ∀ c : Cell, c ∈ s.cells ↔
          (c ≠ cell ∧ (c.1 - cell.1).natAbs ≤ 1 ∧ (c.2 - cell.2).natAbs ≤ 1
            ∧ 0 ≤ c.1 ∧ c.1 < (st.height : Int) ∧ 0 ≤ c.2 ∧ c.2 < (st.width : Int)) :=
  ⟨Sentence.mk (neighborsOf st.height st.width cell) count, rfl, rfl,
    fun _ => mem_neighborsOf⟩

/-! ## C8: make_safe_move -/

/-- C8: `make_safe_move` returns a cell that is in `safes` and not in
`moves_made` whenever one exists, and returns `None` exactly when no such
cell exists.  It is a pure function of the state (the embedding returns
only the move; the source reads but never writes any field). -/
theorem make_safe_move_spec (st : AIState) :
    (∀ c : Cell, makeSafeMove st = some c → c ∈ st.kb.safes ∧ c ∉ st.movesMade)
  ∧ (makeSafeMove st = none ↔ ∀ c ∈ st.kb.safes, c ∈ st.movesMade) := by
  constructor
  · intro c hc
    refine ⟨List.mem_of_find?_eq_some hc, ?_⟩
    have h2 := List.find?_some hc
    simpa using h2
  · unfold makeSafeMove
    rw [List.find?_eq_none]
    constructor
    · intro H c hc
      simpa using H c hc
    · intro H c hc
      simpa using H c hc

/-- State with one deduced-safe unplayed cell, used to instantiate the
`make_safe_move` specification. -/
def safeMoveWitnessState : AIState := ⟨2, 2, [], ⟨[], [((0:Int),(1:Int))], []⟩⟩

theorem make_safe_move_spec_witness :
    ((0:Int),(1:Int)) ∈ safeMoveWitnessState.kb.safes
  ∧ ((0:Int),(1:Int)) ∉ safeMoveWitnessState.movesMade :=
  (make_safe_move_spec safeMoveWitnessState).1 ((0:Int),(1:Int)) (by decide)

/-! ## C9: make_random_move -/

theorem mem_choicesOf {st : AIState} {c : Cell} :
    c ∈ choicesOf st ↔
      0 ≤ c.1 ∧ c.1 < (st.height : Int) ∧ 0 ≤ c.2 ∧ c.2 < (st.width : Int)
        ∧ c ∉ st.movesMade ∧ c ∉ st.kb.mines := by
  obtain ⟨x, y⟩ := c
  unfold choicesOf
  simp only [List.mem_flatMap, List.mem_filterMap, List.mem_range]
  constructor
  · rintro ⟨i, hi, j, hj, hif⟩
    simp only [List.pure_def, List.bind_eq_flatMap, List.mem_flatMap, List.mem_range,
      List.mem_cons, List.not_mem_nil, or_false] at hj
    obtain ⟨n, hn, rfl⟩ := hj
    split at hif
    · next hcond =>
      have hinj := Option.some.inj hif
      rw [Prod.mk.injEq] at hinj
      obtain ⟨hxi, hyj⟩ := hinj
      rw [hxi, hyj] at hcond
      exact ⟨by omega, by omega, by omega, by omega, hcond.1, hcond.2⟩
    · cases hif
  · rintro ⟨h1, h2, h3, h4, h5, h6⟩
    have hx : ((x.toNat : Nat) : Int) = x := Int.toNat_of_nonneg h1
    refine ⟨x.toNat, ?_, y, ?_, ?_⟩
    · omega
    · simp only [List.pure_def, List.bind_eq_flatMap, List.mem_flatMap, List.mem_range,
        List.mem_cons, List.not_mem_nil, or_false]
      exact ⟨y.toNat, by omega, by omega⟩
    · rw [hx, if_pos ⟨h5, h6⟩]

/-- C9: `make_random_move` only ever returns a cell of the board that is
neither in `moves_made` nor in `mines` (whatever the random draw `k`),
and returns `None` exactly when every board cell is in `moves_made` or in
`mines`.  Beyond the draw it is a pure function of the state. -/
theorem make_random_move_spec (st : AIState) (k : Nat) :
    (∀ c : Cell, makeRandomMove st k = some c →
        0 ≤ c.1 ∧ c.1 < (st.height : Int) ∧ 0 ≤ c.2 ∧ c.2 < (st.width : Int)
          ∧ c ∉ st.movesMade ∧ c ∉ st.kb.mines)
  ∧ (makeRandomMove st k = none ↔
      ∀ c : Cell, 0 ≤ c.1 → c.1 < (st.height : Int) → 0 ≤ c.2 → c.2 < (st.width : Int) →
        c ∈ st.movesMade ∨ c ∈ st.kb.mines) := by
  constructor
  · intro c hc
    unfold makeRandomMove at hc
    split at hc
    · cases hc
    · exact mem_choicesOf.mp (List.get?_mem hc)
  · unfold makeRandomMove
    split
    · next hemp =>
      have hnil : choicesOf st = [] := List.isEmpty_iff.mp hemp
      constructor
      · intro _ c h1 h2 h3 h4
        by_contra hcon
        push_neg at hcon
        have : c ∈ choicesOf st := mem_choicesOf.mpr ⟨h1, h2, h3, h4, hcon.1, hcon.2⟩
        rw [hnil] at this
        cases this
      · intro _; rfl
    · next hne =>
      have hlen : 0 < (choicesOf st).length := by
        cases hcs : choicesOf st with
        | nil => rw [hcs] at hne; simp at hne
        | cons a l => simp
      constructor
      · intro habs
        exfalso
        rw [List.get?_eq_none] at habs
        have := Nat.mod_lt k hlen
        omega
      · intro H
        exfalso
        obtain ⟨c, hc⟩ : ∃ c, c ∈ choicesOf st := by
          cases hcs : choicesOf st with
          | nil => rw [hcs] at hne; simp at hne
          | cons a l => exact ⟨a, hcs ▸ List.mem_cons_self a l⟩
        have hch := mem_choicesOf.mp hc
        rcases H c hch.1 hch.2.1 hch.2.2.1 hch.2.2.2.1 with h | h
        · exact hch.2.2.2.2.1 h
        · exact hch.2.2.2.2.2 h

/-- Fresh 1×1 agent, used to instantiate the `make_random_move`
specification (its only choice is `(0,0)`). -/
def randomMoveWitnessState : AIState := ⟨1, 1, [], ⟨[], [], []⟩⟩

theorem make_random_move_spec_witness :
    0 ≤ ((0:Int),(0:Int)).1
  ∧ ((0:Int),(0:Int)).1 < ((randomMoveWitnessState.height : Nat) : Int)
  ∧ 0 ≤ ((0:Int),(0:Int)).2
  ∧ ((0:Int),(0:Int)).2 < ((randomMoveWitnessState.width : Nat) : Int)
  ∧ ((0:Int),(0:Int)) ∉ randomMoveWitnessState.movesMade
  ∧ ((0:Int),(0:Int)) ∉ randomMoveWitnessState.kb.mines :=
  (make_random_move_spec randomMoveWitnessState 0).1 ((0:Int),(0:Int)) (by decide)

/-! ## C10: mutation before the raise -/

theorem markMineGo_abort (c : Cell) :
    ∀ (pre : List Sentence) (s : Sentence) (post : List Sentence),
      (∀ p ∈ pre, (sMarkMine p c).2 = false) → (sMarkMine s c).2 = true →
      markMineGo (pre ++ s :: post) c
        = (pre.map (fun p => (sMarkMine p c).1) ++ (sMarkMine s c).1 :: post, true) := by
  intro pre
  induction pre with
  | nil =>
    intro s post _ hs
    simp [markMineGo, hs]
  | cons p ps ih =>
    intro s post hpre hs
    have hp : (sMarkMine p c).2 = false := hpre p (List.mem_cons_self p ps)
    simp only [List.cons_append, markMineGo, hp, List.map_cons, List.append_eq,
      Bool.false_eq_true, if_false]
    rw [ih s post (fun q hq => hpre q (List.mem_cons_of_mem p hq)) hs]

/-- C10: calling `Sentence.mark_mine(cell)` with `cell ∈ cells` and
`count == 0` first mutates the sentence (the cell is removed and `count`
becomes `-1`) and only then raises; the mutation is not rolled back.
During the Agent's global `mark_mine`, at the point of the raise the cell
is already in the Agent's `mines` set, every sentence before the raising
one is already updated, and the sentences after it are untouched — the
operation is not atomic on error. -/
theorem sentence_mark_mine_mutates_before_raise
    (pre post : List Sentence) (s : Sentence) (c : Cell) (mi sa : CSet)
    (h1 : c ∈ s.cells) (h2 : s.count = 0)
    (hpre : ∀ p ∈ pre, (sMarkMine p c).2 = false) :
    sMarkMine s c = (Sentence.mk (eraseCell c s.cells) (-1), true)
  ∧ kbMarkMine ⟨mi, sa, pre ++ s :: post⟩ c
      = (⟨insertCell c mi, sa,
          pre.map (fun p => (sMarkMine p c).1)
            ++ Sentence.mk (eraseCell c s.cells) (-1) :: post⟩, true) := by
  have hs : sMarkMine s c = (Sentence.mk (eraseCell c s.cells) (-1), true) := by
    simp [sMarkMine, h1, h2]
  refine ⟨hs, ?_⟩
  unfold kbMarkMine
  rw [markMineGo_abort c pre s post hpre (by rw [hs])]
  rw [hs]

theorem sentence_mark_mine_mutates_before_raise_witness :
    sMarkMine ⟨[((0:Int),(0:Int))], 0⟩ ((0:Int),(0:Int))
      = (Sentence.mk (eraseCell ((0:Int),(0:Int)) [((0:Int),(0:Int))]) (-1), true)
  ∧ kbMarkMine ⟨[], [],
      [(⟨[((0:Int),(0:Int)), ((5:Int),(5:Int))], 1⟩ : Sentence)]
        ++ (⟨[((0:Int),(0:Int))], 0⟩ : Sentence) :: [(⟨[((9:Int),(9:Int))], 1⟩ : Sentence)]⟩
      ((0:Int),(0:Int))
      = (⟨insertCell ((0:Int),(0:Int)) [], [],
          [(⟨[((0:Int),(0:Int)), ((5:Int),(5:Int))], 1⟩ : Sentence)].map
              (fun p => (sMarkMine p ((0:Int),(0:Int))).1)
            ++ Sentence.mk (eraseCell ((0:Int),(0:Int)) [((0:Int),(0:Int))]) (-1)
              :: [(⟨[((9:Int),(9:Int))], 1⟩ : Sentence)]⟩, true) :=
  sentence_mark_mine_mutates_before_raise
    [⟨[((0:Int),(0:Int)), ((5:Int),(5:Int))], 1⟩] [⟨[((9:Int),(9:Int))], 1⟩]
    ⟨[((0:Int),(0:Int))], 0⟩ ((0:Int),(0:Int)) [] [] (by decide) rfl (by decide)

/-! ## C4 (amended): retained sentences have nonempty cells and count >= 0 -/

theorem mem_dedupGo {s : Sentence} :
    ∀ (l acc : List Sentence), s ∈ dedupGo acc l → s ∈ acc ∨ s ∈ l := by
  intro l
  induction l with
  | nil =>
    intro acc h
    exact Or.inl h
  | cons t rest ih =>
    intro acc h
    simp only [dedupGo] at h
    split at h
    · rcases ih acc h with h1 | h1
      · exact Or.inl h1
      · exact Or.inr (List.mem_cons_of_mem _ h1)
    · rcases ih (acc ++ [t]) h with h1 | h1
      · rcases List.mem_append.mp h1 with h2 | h2
        · exact Or.inl h2
        · simp only [List.mem_singleton] at h2
          subst h2
          exact Or.inr (List.mem_cons_self _ _)
      · exact Or.inr (List.mem_cons_of_mem _ h1)

theorem mem_subsetStep {s : Sentence} {kb : List Sentence} {s1 s2 : Sentence}
    (h : s ∈ subsetStep kb s1 s2) :
    s ∈ kb ∨ (s.cells ≠ [] ∧ 0 ≤ s.count) := by
  unfold subsetStep at h
  split at h
  · split at h
    · split at h
      · next hc =>
        split at h
        · exact Or.inl h
        · rcases List.mem_append.mp h with h1 | h1
          · exact Or.inl h1
          · simp only [List.mem_singleton] at h1
            subst h1
            exact Or.inr ⟨hc.1, hc.2⟩
      · exact Or.inl h
    · exact Or.inl h
  · exact Or.inl h

theorem subsetLoop_preserves :
    ∀ (fuel i j : Nat) (kb kb' : List Sentence), subsetLoop fuel i j kb = some kb' →
      (∀ s ∈ kb, s.cells ≠ [] ∧ 0 ≤ s.count) → ∀ s ∈ kb', s.cells ≠ [] ∧ 0 ≤ s.count := by
  intro fuel
  induction fuel with
  | zero =>
    intro i j kb kb' h
    cases h
  | succ n ih =>
    intro i j kb kb' h hkb
    simp only [subsetLoop] at h
    cases hgi : kb.get? i with
    | none =>
      rw [hgi] at h
      cases h
      exact hkb
    | some s1 =>
      rw [hgi] at h
      cases hgj : kb.get? j with
      | none =>
        rw [hgj] at h
        exact ih _ _ _ _ h hkb
      | some s2 =>
        rw [hgj] at h
        refine ih _ _ _ _ h ?_
        intro s hs
        rcases mem_subsetStep hs with h1 | h1
        · exact hkb s h1
        · exact h1

theorem mem_cleanupDedup {s : Sentence} {l : List Sentence} (h : s ∈ cleanupDedup l) :
    s.cells ≠ [] ∧ 0 ≤ s.count := by
  unfold cleanupDedup at h
  rcases mem_dedupGo _ _ h with h1 | h1
  · cases h1
  · have h2 := List.mem_filter.mp h1
    have h3 := List.mem_filter.mp h2.1
    constructor
    · simpa using h3.2
    · have h4 := h2.2
      simp only [Bool.or_eq_true, Bool.and_eq_true, decide_eq_true_eq] at h4
      rcases h4 with hgt | ⟨heq, _⟩
      · omega
      · omega

theorem inferencePass_retained (fuel : Nat) (k k' : KB)
    (h : inferencePass fuel k = some (k', false)) :
    ∀ s ∈ k'.knowledge, s.cells ≠ [] ∧ 0 ≤ s.count := by
  unfold inferencePass at h
  split at h
  · exfalso
    have := Option.some.inj h
    have hb : true = false := congrArg Prod.snd this
    cases hb
  · cases hsl : subsetLoop fuel 0 0 (cleanupDedup (step4 k).1.knowledge) with
    | none =>
      rw [hsl] at h
      cases h
    | some kb4 =>
      rw [hsl] at h
      have hkk := Option.some.inj h
      have hk : (⟨(step4 k).1.mines, (step4 k).1.safes, kb4⟩ : KB) = k' :=
        congrArg Prod.fst hkk
      intro s hs
      rw [← hk] at hs
      exact subsetLoop_preserves fuel 0 0 _ kb4 hsl
        (fun t ht => mem_cleanupDedup ht) s hs

/-- C4 (amended): after any `add_knowledge` call that returns without
error, every sentence retained in the knowledge base has non-empty cells
and non-negative count (via the cleanup filters and the subset-rule
guard); the upper bound `count ≤ |cells|` is not maintained. -/
theorem retained_sentences_nonempty_nonneg
    (fuel : Nat) (st : AIState) (cell : Cell) (count : Int) (r : AIState)
    (h : addKnowledge fuel st cell count = some (r, false)) :
    ∀ s ∈ r.kb.knowledge, s.cells ≠ [] ∧ 0 ≤ s.count := by
  unfold addKnowledge at h
  cases hip : inferencePass fuel (preInferState st cell count).kb with
  | none =>
    rw [hip] at h
    cases h
  | some p =>
    rw [hip] at h
    have h1 := Option.some.inj h
    have hflag : p.2 = false := congrArg Prod.snd h1
    have hr := congrArg Prod.fst h1
    obtain ⟨p1, p2⟩ := p
    simp only at hflag hr
    subst hflag
    intro s hs
    rw [← hr] at hs
    exact inferencePass_retained fuel _ p1 hip s hs

theorem retained_sentences_nonempty_nonneg_witness :
    ([((0:Int),(1:Int)), ((1:Int),(0:Int)), ((1:Int),(1:Int))] : CSet) ≠ []
  ∧ (0:Int) ≤ (1:Int) :=
  retained_sentences_nonempty_nonneg 100 (initialAI 2 2) ((0:Int),(0:Int)) 1
    ⟨2, 2, [((0:Int),(0:Int))],
     ⟨[], [((0:Int),(0:Int))],
      [⟨[((0:Int),(1:Int)), ((1:Int),(0:Int)), ((1:Int),(1:Int))], 1⟩]⟩⟩
    (by decide) ⟨[((0:Int),(1:Int)), ((1:Int),(0:Int)), ((1:Int),(1:Int))], 1⟩ (by decide)

/-! ## C3 (amended): conditional idempotence of the inference pass -/

theorem step4Go_noop (k : KB)
    (hq : ∀ s ∈ k.knowledge, knownMines s = [] ∧ knownSafes s = []) :
    ∀ (n i : Nat), step4Go i n k = (k, false) := by
  intro n
  induction n with
  | zero => intro i; rfl
  | succ m ih =>
    intro i
    simp only [step4Go]
    split
    · rfl
    · next sen hgi =>
      have hsen := hq sen (List.get?_mem hgi)
      rw [hsen.1]
      simp only [markMinesList, Bool.false_eq_true, if_false]
      rw [hgi]
      dsimp only
      rw [hsen.2]
      exact ih (i + 1)

theorem dedupGo_eq_append :
    ∀ (l acc : List Sentence), l.Nodup → (∀ s ∈ l, s ∉ acc) → dedupGo acc l = acc ++ l := by
  intro l
  induction l with
  | nil =>
    intro acc _ _
    simp [dedupGo]
  | cons t rest ih =>
    intro acc hnd hdisj
    simp only [dedupGo]
    rw [if_neg (hdisj t (List.mem_cons_self _ _))]
    rw [ih (acc ++ [t]) (List.nodup_cons.mp hnd).2 ?_]
    · simp
    · intro s hs
      simp only [List.mem_append, List.mem_singleton]
      rintro (h1 | h1)
      · exact hdisj s (List.mem_cons_of_mem _ hs) h1
      · subst h1
        exact (List.nodup_cons.mp hnd).1 hs

theorem subsetLoop_noop :
    ∀ (fuel i j : Nat) (kb : List Sentence),
      (∀ s1 ∈ kb, ∀ s2 ∈ kb, subsetStep kb s1 s2 = kb) →
      (kb.length - i) * (kb.length + 1) + (kb.length - j) + 1 ≤ fuel →
      subsetLoop fuel i j kb = some kb := by
  intro fuel
  induction fuel with
  | zero =>
    intro i j kb _ hf
    omega
  | succ n ih =>
    intro i j kb hcl hf
    simp only [subsetLoop]
    split
    · rfl
    · next s1 hgi =>
      have hi : i < kb.length := by
        by_contra hge
        rw [List.get?_eq_none.mpr (by omega)] at hgi
        cases hgi
      split
      · next hgj =>
        have hj : kb.length ≤ j := List.get?_eq_none.mp hgj
        apply ih (i + 1) 0 kb hcl
        have hsub : kb.length - i = (kb.length - (i + 1)) + 1 := by omega
        rw [hsub, Nat.succ_mul] at hf
        omega
      · next s2 hgj =>
        have hj : j < kb.length := by
          by_contra hge
          rw [List.get?_eq_none.mpr (by omega)] at hgj
          cases hgj
        rw [hcl s1 (List.get?_mem hgi) s2 (List.get?_mem hgj)]
        apply ih i (j + 1) kb hcl
        omega

/-- C3 (amended): `add_knowledge` runs a single inference pass, not a
fixpoint, and re-running the pass can change the state (see the
counterexample).  The pass is idempotent exactly on the stable states: if
no sentence yields a pending trivial deduction, every sentence has
non-empty cells and non-negative count, the knowledge list is
duplicate-free, and it is closed under the subset rule, then re-running
the pass returns the state unchanged (given enough fuel for the double
loop). -/
theorem inference_pass_conditional_idempotent (k : KB)
    (h1 : ∀ s ∈ k.knowledge, knownMines s = [] ∧ knownSafes s = [])
    (h2 : ∀ s ∈ k.knowledge, s.cells ≠ [] ∧ 0 ≤ s.count)
    (h3 : k.knowledge.Nodup)
    (h4 : ∀ s1 ∈ k.knowledge, ∀ s2 ∈ k.knowledge, subsetStep k.knowledge s1 s2 = k.knowledge)
    (fuel : Nat)
    (hf : k.knowledge.length * (k.knowledge.length + 1) + k.knowledge.length + 1 ≤ fuel) :
    inferencePass fuel k = some (k, false) := by
  have hcnt : ∀ s ∈ k.knowledge, 0 < s.count := by
    intro s hs
    have hks := (h1 s hs).2
    have hc := h2 s hs
    rcases lt_or_eq_of_le hc.2 with h | h
    · exact h
    · exfalso
      unfold knownSafes at hks
      rw [if_pos h.symm] at hks
      exact hc.1 hks
  have hstep : step4 k = (k, false) := step4Go_noop k h1 _ 0
  have hf1 : k.knowledge.filter (fun s => !s.cells.isEmpty) = k.knowledge := by
    apply List.filter_eq_self.mpr
    intro s hs
    simpa using (h2 s hs).1
  have hf2 : k.knowledge.filter
      (fun s => decide (0 < s.count) || (decide (s.count = 0) && !s.cells.isEmpty))
        = k.knowledge := by
    apply List.filter_eq_self.mpr
    intro s hs
    simp [hcnt s hs]
  have hclean : cleanupDedup k.knowledge = k.knowledge := by
    unfold cleanupDedup
    rw [hf1, hf2]
    simpa using dedupGo_eq_append k.knowledge [] h3 (by simp)
  have hloop : subsetLoop fuel 0 0 k.knowledge = some k.knowledge := by
    apply subsetLoop_noop fuel 0 0 k.knowledge h4
    simpa using hf
  unfold inferencePass
  rw [hstep]
  simp only [hclean, hloop, Bool.false_eq_true, if_false]

/-- Stable one-sentence knowledge part used to instantiate the
conditional-idempotence theorem. -/
def stableKB : KB := ⟨[], [], [⟨[((0:Int),(0:Int)), ((0:Int),(1:Int))], 1⟩]⟩

theorem inference_pass_conditional_idempotent_witness :
    inferencePass 10 stableKB = some (stableKB, false) :=
  inference_pass_conditional_idempotent stableKB (by decide) (by decide) (by decide)
    (by decide) 10 (by decide)

/-! ## C7: a zero observation proves all neighbours safe -/

theorem neighborsOf_zero {h w : Nat} (hh : 2 ≤ h) (hw : 2 ≤ w) :
    neighborsOf h w ((0:Int),(0:Int))
      = [((0:Int),(1:Int)), ((1:Int),(0:Int)), ((1:Int),(1:Int))] := by
  have hh0 : 0 < h := by omega
  have hh1 : 1 < h := by omega
  have hw0 : 0 < w := by omega
  have hw1 : 1 < w := by omega
  simp +decide [neighborsOf, setFrom, insertCell, cellLe, List.range_succ, List.range_zero,
    hh0, hh1, hw0, hw1]

/-- C7: on a fresh agent whose board bounds allow a 3×3 region around the
origin (height ≥ 2 and width ≥ 2), `add_knowledge((0,0), 0)` returns
normally and proves all three neighbours safe:
`{(0,1),(1,0),(1,1)} ⊆ safes` when the call returns. -/
theorem add_knowledge_zero_marks_neighbors_safe (h w : Nat) (hh : 2 ≤ h) (hw : 2 ≤ w) :
    ∃ r : AIState,
      addKnowledge 100 (initialAI h w) ((0:Int),(0:Int)) 0 = some (r, false)
      ∧ ((0:Int),(1:Int)) ∈ r.kb.safes ∧ ((1:Int),(0:Int)) ∈ r.kb.safes
      ∧ ((1:Int),(1:Int)) ∈ r.kb.safes := by
  refine ⟨⟨h, w, [((0:Int),(0:Int))],
          ⟨[], [((0:Int),(0:Int)), ((0:Int),(1:Int)), ((1:Int),(0:Int)), ((1:Int),(1:Int))],
           []⟩⟩, ?_, by simp, by simp, by simp⟩
  have hn := neighborsOf_zero hh hw
  unfold addKnowledge preInferState aiMarkSafe kbMarkSafe initialAI
  dsimp only
  rw [hn]
  rfl

theorem add_knowledge_zero_marks_neighbors_safe_witness :
    ∃ r : AIState,
      addKnowledge 100 (initialAI 3 3) ((0:Int),(0:Int)) 0 = some (r, false)
      ∧ ((0:Int),(1:Int)) ∈ r.kb.safes ∧ ((1:Int),(0:Int)) ∈ r.kb.safes
      ∧ ((1:Int),(1:Int)) ∈ r.kb.safes :=
  add_knowledge_zero_marks_neighbors_safe 3 3 (by decide) (by decide)
